import Mathlib

/-!
Verification of the IMAP encoding-scan node: a shallow embedding of the
search-criteria compiler, the token flattener, the encoding anomaly matcher
(MIME part-tree pass and raw-header fallback pass) and the scan orchestrator
loop, together with theorems settling the specified behavioural claims.

Modelling conventions:
* JavaScript strings are Lean `String`s; `toUpperCase`/`toLowerCase` are
  mapped per character (`Char.toUpper`/`Char.toLower`), which agrees on the
  ASCII data all claims are about.
* A compiled regular expression together with `RegExp.test` is modelled as an
  abstract predicate `String → Bool`: the claims quantify over the compiled
  pattern and never depend on regex syntax. The three concrete regexes that
  the code itself builds (header unfolding, the Content-Transfer-Encoding
  line scan, whitespace collapsing) are translated explicitly.
* JavaScript numbers produced by `Number(tok)` are kept as an uninterpreted
  wrapper `JsNumber` around the source token: no claim inspects numeric
  semantics, only that the token is consumed and stored as a number.
* `null` and `undefined` coincide in the JSON-derived data the code handles;
  both are `Option.none` (or the `CriteriaValue.null` constructor).
-/

/-- Character class of the JavaScript regex token `\s` (ASCII part), used by
`cleanEncoding` via `replace(/\s+/g, ' ')` and `trim()`. -/
def jsWs (c : Char) : Bool :=
  c = ' ' || c = '\t' || c = '\n' || c = '\r' || c = '\x0b' || c = '\x0c'

/-- Replacement of every maximal whitespace run by a single space, i.e. the
effect of `value.replace(/\s+/g, ' ')`. The flag records whether the previous
character already belonged to a whitespace run. -/
def collapseWsAux : Bool → List Char → List Char
  | _, [] => []
  | prevWs, c :: rest =>
    if jsWs c then
      (if prevWs then collapseWsAux true rest else ' ' :: collapseWsAux true rest)
    else c :: collapseWsAux false rest

/-- Effect of JavaScript `String.prototype.trim` (whitespace stripped from
both ends). -/
def trimJs (l : List Char) : List Char :=
  ((l.dropWhile jsWs).reverse.dropWhile jsWs).reverse

/-- Translation of `cleanEncoding`: a falsy value (absent or the empty
string) yields `''`; otherwise whitespace runs are collapsed to single
spaces and the result is trimmed. -/
def cleanEncoding (value : Option String) : String :=
  match value with
  | none => ""
  | some s => if s.data.isEmpty then "" else String.mk (trimJs (collapseWsAux false s.data))

/-- Result of the JavaScript `Number(tok)` coercion, kept uninterpreted as
the token it was applied to (no claim depends on numeric semantics). -/
structure JsNumber where
  source : String
deriving DecidableEq, Repr

/-- Value stored under a header key by the compiler: boolean when the raw
token case-insensitively equals `true`/`false`, otherwise the raw string. -/
inductive HeaderValue where
  | bool (b : Bool)
  | str (s : String)
deriving DecidableEq, Repr

/-- Character-wise model of `String.prototype.toUpperCase` (exact on
ASCII). -/
def jsToUpper (s : String) : String :=
  String.mk (s.data.map Char.toUpper)

/-- Character-wise model of `String.prototype.toLowerCase` (exact on
ASCII). -/
def jsToLower (s : String) : String :=
  String.mk (s.data.map Char.toLower)

/-- Semantics of the object spread `{ ...(old), [k]: v }`: an existing key
keeps its position but receives the new value, a fresh key is appended. -/
def insertAssoc (l : List (String × HeaderValue)) (k : String) (v : HeaderValue) :
    List (String × HeaderValue) :=
  match l with
  | [] => [(k, v)]
  | (k', v') :: rest => if k' = k then (k, v) :: rest else (k', v') :: insertAssoc rest k v

/-- Coercion of a HEADER value token: `true`/`false` case-insensitively
become booleans, everything else stays the original string. -/
def parseHeaderValue (v : String) : HeaderValue :=
  if jsToLower v = "true" then .bool true
  else if jsToLower v = "false" then .bool false
  else .str v

/-- The imapflow `SearchObject` shape as the compiler populates it: every
recognized key is optional and starts absent, matching the literal `{}` the
code begins with (`Object.keys` counts exactly the fields that were
assigned). -/
structure SearchObject where
  all : Option Bool := none
  seen : Option Bool := none
  answered : Option Bool := none
  deleted : Option Bool := none
  draft : Option Bool := none
  flagged : Option Bool := none
  recent : Option Bool := none
  old : Option Bool := none
  new : Option Bool := none
  from' : Option String := none
  to' : Option String := none
  cc : Option String := none
  bcc : Option String := none
  subject : Option String := none
  body : Option String := none
  larger : Option JsNumber := none
  smaller : Option JsNumber := none
  before : Option String := none
  on' : Option String := none
  since : Option String := none
  sentBefore : Option String := none
  sentOn : Option String := none
  sentSince : Option String := none
  uid : Option String := none
  header : Option (List (String × HeaderValue)) := none
deriving DecidableEq, Repr

/-- Test `Object.keys(search).length > 0` in negated form: true exactly when
no field has been assigned. -/
def SearchObject.isEmpty (s : SearchObject) : Bool :=
  s.all.isNone && s.seen.isNone && s.answered.isNone && s.deleted.isNone &&
  s.draft.isNone && s.flagged.isNone && s.recent.isNone && s.old.isNone &&
  s.new.isNone && s.from'.isNone && s.to'.isNone && s.cc.isNone &&
  s.bcc.isNone && s.subject.isNone && s.body.isNone && s.larger.isNone &&
  s.smaller.isNone && s.before.isNone && s.on'.isNone && s.since.isNone &&
  s.sentBefore.isNone && s.sentOn.isNone && s.sentSince.isNone &&
  s.uid.isNone && s.header.isNone

deriving instance DecidableEq for Except

/-- The while loop of `tokensToSearchObject`: one token is shifted per
iteration, upper-cased for keyword matching only; single-argument keywords
shift one further token (`nextToken`), HEADER shifts two; a missing argument
or an unrecognized keyword aborts with the corresponding thrown message. -/
def tokensLoop (search : SearchObject) (tokens : List String) : Except String SearchObject :=
  match tokens with
  | [] => .ok search
  | rawToken :: rest =>
    match jsToUpper rawToken with
    | "ALL" => tokensLoop { search with all := some true } rest
    | "SEEN" => tokensLoop { search with seen := some true } rest
    | "UNSEEN" => tokensLoop { search with seen := some false } rest
    | "ANSWERED" => tokensLoop { search with answered := some true } rest
    | "UNANSWERED" => tokensLoop { search with answered := some false } rest
    | "DELETED" => tokensLoop { search with deleted := some true } rest
    | "UNDELETED" => tokensLoop { search with deleted := some false } rest
    | "DRAFT" => tokensLoop { search with draft := some true } rest
    | "UNDRAFT" => tokensLoop { search with draft := some false } rest
    | "FLAGGED" => tokensLoop { search with flagged := some true } rest
    | "UNFLAGGED" => tokensLoop { search with flagged := some false } rest
    | "RECENT" => tokensLoop { search with recent := some true } rest
    | "OLD" => tokensLoop { search with old := some true } rest
    | "NEW" => tokensLoop { search with new := some true } rest
    | "FROM" =>
      match rest with
      | [] => .error "FROM requires an additional value."
      | v :: rest2 => tokensLoop { search with from' := some v } rest2
    | "TO" =>
      match rest with
      | [] => .error "TO requires an additional value."
      | v :: rest2 => tokensLoop { search with to' := some v } rest2
    | "CC" =>
      match rest with
      | [] => .error "CC requires an additional value."
      | v :: rest2 => tokensLoop { search with cc := some v } rest2
    | "BCC" =>
      match rest with
      | [] => .error "BCC requires an additional value."
      | v :: rest2 => tokensLoop { search with bcc := some v } rest2
    | "SUBJECT" =>
      match rest with
      | [] => .error "SUBJECT requires an additional value."
      | v :: rest2 => tokensLoop { search with subject := some v } rest2
    | "BODY" =>
      match rest with
      | [] => .error "BODY requires an additional value."
      | v :: rest2 => tokensLoop { search with body := some v } rest2
    | "LARGER" =>
      match rest with
      | [] => .error "LARGER requires an additional value."
      | v :: rest2 => tokensLoop { search with larger := some (JsNumber.mk v) } rest2
    | "SMALLER" =>
      match rest with
      | [] => .error "SMALLER requires an additional value."
      | v :: rest2 => tokensLoop { search with smaller := some (JsNumber.mk v) } rest2
    | "BEFORE" =>
      match rest with
      | [] => .error "BEFORE requires an additional value."
      | v :: rest2 => tokensLoop { search with before := some v } rest2
    | "ON" =>
      match rest with
      | [] => .error "ON requires an additional value."
      | v :: rest2 => tokensLoop { search with on' := some v } rest2
    | "SINCE" =>
      match rest with
      | [] => .error "SINCE requires an additional value."
      | v :: rest2 => tokensLoop { search with since := some v } rest2
    | "SENTBEFORE" =>
      match rest with
      | [] => .error "SENTBEFORE requires an additional value."
      | v :: rest2 => tokensLoop { search with sentBefore := some v } rest2
    | "SENTON" =>
      match rest with
      | [] => .error "SENTON requires an additional value."
      | v :: rest2 => tokensLoop { search with sentOn := some v } rest2
    | "SENTSINCE" =>
      match rest with
      | [] => .error "SENTSINCE requires an additional value."
      | v :: rest2 => tokensLoop { search with sentSince := some v } rest2
    | "UID" =>
      match rest with
      | [] => .error "UID requires an additional value."
      | v :: rest2 => tokensLoop { search with uid := some v } rest2
    | "HEADER" =>
      match rest with
      | [] => .error "HEADER requires an additional value."
      | headerKey :: rest2 =>
        match rest2 with
        | [] => .error "HEADER requires an additional value."
        | headerValue :: rest3 =>
          tokensLoop
            { search with
              header := some (insertAssoc (search.header.getD [])
                (jsToLower headerKey) (parseHeaderValue headerValue)) } rest3
    | _ => .error ("Unsupported search token \"" ++ rawToken ++ "\".")

/-- Translation of `tokensToSearchObject`: run the consuming loop from an
empty object, then substitute the canonical match-all predicate when no
field was assigned. -/
def tokensToSearchObject (tokens : List String) : Except String SearchObject :=
  match tokensLoop {} tokens with
  | .error e => .error e
  | .ok s => .ok (if s.isEmpty then { all := some true } else s)

/-- The fifteen keywords that consume exactly one following token. -/
def singleArgKeywords : List String :=
  ["FROM", "TO", "CC", "BCC", "SUBJECT", "BODY", "LARGER", "SMALLER",
   "BEFORE", "ON", "SINCE", "SENTBEFORE", "SENTON", "SENTSINCE", "UID"]

example : tokensToSearchObject [] = .ok { all := some true } := by decide
example : tokensToSearchObject ["unseen"] = .ok { seen := some false } := by decide
example : tokensToSearchObject ["FROM"] = .error "FROM requires an additional value." := by decide
example : tokensToSearchObject ["HEADER", "X-Test", "true", "HEADER", "X-Test", "value2"] =
    .ok { header := some [("x-test", .str "value2")] } := by decide

/-- Parsed JSON as handed to the node (`JSON.parse` result): a primitive, a
nested array, or an object. Numbers are kept by their literal text (their
numeric semantics is irrelevant to every claim, and `String()` of a number is
modelled as that text). -/
inductive CriteriaValue where
  | null
  | bool (b : Bool)
  | num (text : String)
  | str (s : String)
  | arr (xs : List CriteriaValue)
  | obj (fields : List (String × CriteriaValue))

/-- Stringification `String(current)` as applied by the flattener to the
non-null, non-array, non-object values that reach it. -/
def jsStringPrim : CriteriaValue → String
  | .bool b => if b then "true" else "false"
  | .num t => t
  | .str s => s
  | .null => "null"
  | .arr _ => ""
  | .obj _ => ""

mutual

/-- Translation of `flattenSearchTokens`: the inner `recurse` closure walks
the value depth-first; `null`/`undefined` contribute nothing, arrays are
walked element by element into the same flat list, a non-array object throws,
and any other value is stringified and appended. -/
def flattenSearchTokens : CriteriaValue → Except String (List String)
  | .null => .ok []
  | .arr xs => flattenSearchTokensList xs
  | .obj _ => .error "Search criteria arrays may not contain nested objects."
  | .bool b => .ok [jsStringPrim (.bool b)]
  | .num t => .ok [jsStringPrim (.num t)]
  | .str s => .ok [jsStringPrim (.str s)]

/-- Sequential walk of an array's elements with exception propagation: the
first nested object aborts the whole flattening. -/
def flattenSearchTokensList : List CriteriaValue → Except String (List String)
  | [] => .ok []
  | x :: xs =>
    match flattenSearchTokens x with
    | .error e => .error e
    | .ok a =>
      match flattenSearchTokensList xs with
      | .error e => .error e
      | .ok b => .ok (a ++ b)

end

mutual

/-- Specification-side predicate: does a mapping occur anywhere inside the
value (the condition under which flattening must fail)? -/
def containsMapping : CriteriaValue → Bool
  | .obj _ => true
  | .arr xs => anyMapping xs
  | _ => false

/-- List form of `containsMapping`. -/
def anyMapping : List CriteriaValue → Bool
  | [] => false
  | x :: xs => containsMapping x || anyMapping xs

end

mutual

/-- Specification-side enumeration: the non-null primitive leaves of a value
in depth-first pre-order encounter order, nested sequences expanded in
place. -/
def preorderPrims : CriteriaValue → List CriteriaValue
  | .null => []
  | .obj _ => []
  | .arr xs => preorderPrimsList xs
  | .bool b => [.bool b]
  | .num t => [.num t]
  | .str s => [.str s]

/-- List form of `preorderPrims`. -/
def preorderPrimsList : List CriteriaValue → List CriteriaValue
  | [] => []
  | x :: xs => preorderPrims x ++ preorderPrimsList xs

end

/-- Object mode of the execute branch: a supplied JSON mapping passes
through unchanged when it has at least one key, and is replaced by the
match-all object when empty. -/
def objectModeNormalize (fields : List (String × CriteriaValue)) :
    List (String × CriteriaValue) :=
  if fields.isEmpty then [("all", .bool true)] else fields

mutual

/-- Node-count measure used for the structural induction over
`CriteriaValue` (objects count as leaves: neither the flattener nor the
mapping test recurses into them). -/
def cvSize : CriteriaValue → Nat
  | .arr xs => 1 + cvSizeList xs
  | _ => 1

/-- List form of `cvSize`. -/
def cvSizeList : List CriteriaValue → Nat
  | [] => 0
  | x :: xs => cvSize x + cvSizeList xs

end

example : flattenSearchTokens (.arr [.str "UNSEEN", .null, .arr [.num "5", .bool true]]) =
    .ok ["UNSEEN", "5", "true"] := by decide
example : flattenSearchTokens (.arr [.str "A", .obj []]) =
    .error "Search criteria arrays may not contain nested objects." := by decide

/-- MIME part tree node (`MessageStructureObject`) restricted to the fields
the scanner reads: type label, part path, disposition, transfer encoding and
the ordered child list. -/
inductive MessageStructure where
  | mk (type : Option String) (part : Option String) (disposition : Option String)
       (encoding : Option String) (childNodes : List MessageStructure)

/-- Type label of a node. -/
def MessageStructure.type : MessageStructure → Option String
  | .mk t _ _ _ _ => t

/-- Part path label of a node. -/
def MessageStructure.part : MessageStructure → Option String
  | .mk _ p _ _ _ => p

/-- Disposition label of a node. -/
def MessageStructure.disposition : MessageStructure → Option String
  | .mk _ _ d _ _ => d

/-- Transfer-encoding field of a node. -/
def MessageStructure.encoding : MessageStructure → Option String
  | .mk _ _ _ e _ => e

/-- Child list of a node. -/
def MessageStructure.childNodes : MessageStructure → List MessageStructure
  | .mk _ _ _ _ cs => cs

/-- Truthiness filter used by `describeStructure`: an absent or empty label
contributes nothing. -/
def optLabel : Option String → List String
  | none => []
  | some s => if s = "" then [] else [s]

/-- Model of `Array.prototype.join(' ')`. -/
def joinSpace : List String → String
  | [] => ""
  | [x] => x
  | x :: y :: rest => x ++ " " ++ joinSpace (y :: rest)

/-- Translation of `describeStructure`: type, then `part <path>`, then
disposition, space-joined, defaulting to the literal `message`. -/
def describeStructure (n : MessageStructure) : String :=
  let parts := optLabel n.type ++ (optLabel n.part).map (fun p => "part " ++ p) ++
    optLabel n.disposition
  if parts = [] then "message" else joinSpace parts

mutual

/-- Number of nodes of a tree, the termination measure of the queue
traversal. -/
def nodeCount : MessageStructure → Nat
  | .mk _ _ _ _ cs => 1 + nodeCountList cs

/-- Total node count of a forest. -/
def nodeCountList : List MessageStructure → Nat
  | [] => 0
  | c :: cs => nodeCount c + nodeCountList cs

end

theorem nodeCountList_append (a b : List MessageStructure) :
    nodeCountList (a ++ b) = nodeCountList a + nodeCountList b := by
  induction a with
  | nil => simp [nodeCountList]
  | cons x xs ih =>
    simp only [List.cons_append, List.append_eq, nodeCountList, ih]
    omega

theorem nodeCount_pos (n : MessageStructure) : 0 < nodeCount n := by
  cases n with
  | mk t p d e cs => simp only [nodeCount]; omega

theorem nodeCount_eq (n : MessageStructure) :
    nodeCount n = 1 + nodeCountList n.childNodes := by
  cases n with
  | mk t p d e cs => simp only [nodeCount, MessageStructure.childNodes]

/-- Body of the `while (stack.length > 0)` loop of `collectEncodingMatches`:
the front node is shifted off the queue, its normalized encoding is tested
(a falsy, i.e. empty, normalization never matches), and its children are
appended to the queue whether or not the node matched. -/
def collectEncodingMatchesAux (regex : String → Bool) (queue : List MessageStructure) :
    List String :=
  match queue with
  | [] => []
  | n :: rest =>
    (let encoding := cleanEncoding n.encoding
     if encoding ≠ "" ∧ regex encoding = true
       then [describeStructure n ++ ": " ++ encoding] else []) ++
    collectEncodingMatchesAux regex (rest ++ n.childNodes)
termination_by nodeCountList queue
decreasing_by
  simp only [nodeCountList, nodeCountList_append, nodeCount_eq]
  omega

/-- Translation of `collectEncodingMatches`: an absent structure yields no
matches, otherwise the queue traversal is seeded with the root. -/
def collectEncodingMatches (structure' : Option MessageStructure)
    (regex : String → Bool) : List String :=
  match structure' with
  | none => []
  | some root => collectEncodingMatchesAux regex [root]

/-- Breadth-first enumeration of the nodes reachable from a queue, in the
exact order the traversal of `collectEncodingMatches` visits them. -/
def bfsNodes (queue : List MessageStructure) : List MessageStructure :=
  match queue with
  | [] => []
  | n :: rest => n :: bfsNodes (rest ++ n.childNodes)
termination_by nodeCountList queue
decreasing_by
  simp only [nodeCountList, nodeCountList_append, nodeCount_eq]
  omega

/-- Per-node match payload: the provenance entry a node contributes when its
normalized encoding is nonempty and matches. -/
def matchEntry (regex : String → Bool) (n : MessageStructure) : Option String :=
  let encoding := cleanEncoding n.encoding
  if encoding ≠ "" ∧ regex encoding = true
    then some (describeStructure n ++ ": " ++ encoding) else none

example : collectEncodingMatches
    (some (.mk (some "multipart/mixed") none none none
      [.mk (some "text/plain") (some "1") none (some "8bit") [],
       .mk (some "text/html") (some "2") none (some "7bit") []]))
    (fun s => s == "8bit") = ["text/plain part 1: 8bit"] := by
  simp [collectEncodingMatches, collectEncodingMatchesAux, cleanEncoding, describeStructure,
    MessageStructure.encoding, MessageStructure.type, MessageStructure.part,
    MessageStructure.disposition, MessageStructure.childNodes, optLabel, joinSpace,
    trimJs, collapseWsAux, jsWs]

/-- Replacement pass of `rawHeaders.replace(/\r?\n[ \t]+/g, ' ')` (header
continuation unfolding). In `true` mode the traversal is consuming the tail
of a matched `[ \t]+` run; in `false` mode it scans for the next match,
copying characters at which the pattern cannot start. -/
def unfoldWsAux : Bool → List Char → List Char
  | _, [] => []
  | true, c :: rest =>
    if c = ' ' ∨ c = '\t' then unfoldWsAux true rest
    else unfoldWsAux false (c :: rest)
  | false, '\r' :: '\n' :: c :: rest =>
    if c = ' ' ∨ c = '\t' then ' ' :: unfoldWsAux true rest
    else '\r' :: unfoldWsAux false ('\n' :: c :: rest)
  | false, '\n' :: c :: rest =>
    if c = ' ' ∨ c = '\t' then ' ' :: unfoldWsAux true rest
    else '\n' :: unfoldWsAux false (c :: rest)
  | false, c :: rest => c :: unfoldWsAux false rest
termination_by b l => (l.length, if b then 1 else 0)

/-- Split at every line terminator, the positions where the multiline
anchors `^`/`$` of the header-scanning regex match (`.` never crosses
them). -/
def splitLines : List Char → List (List Char)
  | [] => [[]]
  | c :: rest =>
    if c = '\n' ∨ c = '\r' then [] :: splitLines rest
    else
      match splitLines rest with
      | [] => [[c]]
      | l :: ls => (c :: l) :: ls

/-- Character list of the literal the header regex anchors on. -/
def ctePat : List Char := "content-transfer-encoding:".data

/-- Case-insensitive test that a line begins with
`Content-Transfer-Encoding:` (the `^...` part of the regex under the `i`
flag). -/
def isCteLine (line : List Char) : Bool :=
  (line.take ctePat.length).map Char.toLower == ctePat

/-- Capture group `(.+)` after `\s*` on the rest of a CTE line: the greedy
whitespace run is skipped, and when only whitespace remains the quantifier
backtracks one character so that `(.+)` still captures the final one; an
empty remainder does not match at all. -/
def cteCaptured (rest : List Char) : Option (List Char) :=
  let afterWs := rest.dropWhile (fun c => jsWs c)
  if afterWs.isEmpty then
    match rest.reverse with
    | [] => none
    | c :: _ => some [c]
  else some afterWs

/-- Entry contributed by one line of the unfolded header block: a
`Content-Transfer-Encoding` line whose captured value normalizes to a
nonempty string matching the pattern yields `headers: <value>`. -/
def cteLineEntry (regex : String → Bool) (line : List Char) : Option String :=
  if isCteLine line then
    match cteCaptured (line.drop ctePat.length) with
    | none => none
    | some cap =>
      let cleaned := cleanEncoding (some (String.mk cap))
      if cleaned ≠ "" ∧ regex cleaned = true
        then some ("headers: " ++ cleaned) else none
  else none

/-- Translation of `collectHeaderEncodingMatches`: a falsy header block
yields nothing; otherwise continuation lines are unfolded and every
`Content-Transfer-Encoding` line whose normalized value is nonempty and
matches the pattern contributes one `headers: <value>` entry, in line
order. -/
def collectHeaderEncodingMatches (rawHeaders : Option String) (regex : String → Bool) :
    List String :=
  match rawHeaders with
  | none => []
  | some h =>
    if h.data.isEmpty then []
    else (splitLines (unfoldWsAux false h.data)).filterMap (cteLineEntry regex)

/-- Order-preserving de-duplication keeping first occurrences, the effect of
`Array.from(new Set(xs))`. -/
def dedupFirstAux (seen : List String) : List String → List String
  | [] => []
  | x :: xs => if x ∈ seen then dedupFirstAux seen xs else x :: dedupFirstAux (x :: seen) xs

/-- Entry point of the de-duplication with nothing seen yet. -/
def dedupFirst (xs : List String) : List String :=
  dedupFirstAux [] xs

/-- Fetched message as the scanner consumes it: the IMAP uid (`0` standing
for the falsy uid the code rejects), the optional body structure, and the
optional raw header text (`message.headers` decoded to utf-8). -/
structure FetchedMessage where
  uid : Nat
  bodyStructure : Option MessageStructure
  headers : Option String

/-- Per-message suspect list exactly as lines 557-568 of the node build it:
the part-tree pass runs first, and only when it produced nothing and raw
headers are present is the header fallback appended. -/
def suspectDetailsOf (m : FetchedMessage) (regex : String → Bool) : List String :=
  let tree := collectEncodingMatches m.bodyStructure regex
  match m.headers with
  | none => tree
  | some h =>
    if tree.length = 0 then tree ++ collectHeaderEncodingMatches (some h) regex else tree

/-- The `matchSources` field of a match record:
`Array.from(new Set(suspectDetails))`. -/
def matchSourcesOf (m : FetchedMessage) (regex : String → Bool) : List String :=
  dedupFirst (suspectDetailsOf m regex)

example : collectHeaderEncodingMatches
    (some "Subject: x\r\nContent-Transfer-Encoding: 8bit\r\n\t+supplement\r\nX: y")
    (fun s => s == "8bit +supplement") = ["headers: 8bit +supplement"] := by
  simp [collectHeaderEncodingMatches, cteLineEntry, unfoldWsAux, splitLines, isCteLine,
    ctePat, cteCaptured, cleanEncoding, trimJs, collapseWsAux, jsWs]
example : collectHeaderEncodingMatches (some "Content-Transfer-Encoding:   ")
    (fun _ => true) = [] := by
  simp [collectHeaderEncodingMatches, cteLineEntry, unfoldWsAux, splitLines, isCteLine,
    ctePat, cteCaptured, cleanEncoding, trimJs, collapseWsAux, jsWs]

/-- Match record restricted to the fields the claims constrain: the uid and
the de-duplicated provenance list. The optional enrichment of an entry
(subject/date/from summary, raw headers, raw message payload, message id)
is data copied from the fetch result and is referenced by no claim. -/
structure MatchRecord where
  imapUid : Nat
  matchSources : List String
deriving DecidableEq, Repr

/-- Options of the scan after the sanitization of lines 437-452: the
compiled pattern, the stop-after-first flag, the maximum match count
(0 meaning unbounded) and the progress interval (0 meaning disabled). -/
structure ScanConfig where
  regex : String → Bool
  stopAfterFirst : Bool
  maxResults : Nat
  progressEvery : Nat

/-- Mutable state of the candidate loop: `scanned`, `matches` (here
`matchList`, since Lean reserves the word), and the
sequence of progress notifications emitted so far. A notification is
recorded as the pair of the data its log line reports, the scanned count
and the match count at emission time. -/
structure ScanState where
  scanned : Nat
  matchList : List MatchRecord
  progressLog : List (Nat × Nat)
deriving DecidableEq, Repr

/-- Summary record pushed after the loop. -/
structure ScanSummary where
  matchCount : Nat
  totalCandidates : Nat
  scanned : Nat
  matchDetails : List MatchRecord
deriving DecidableEq, Repr

/-- The periodic progress notification as the code writes it at both call
sites: fires when the interval is configured (nonzero) and the scanned
count is a multiple of it. -/
def progressCheck (cfg : ScanConfig) (s : ScanState) : ScanState :=
  if cfg.progressEvery ≠ 0 ∧ s.scanned % cfg.progressEvery = 0 then
    { s with progressLog := s.progressLog ++ [(s.scanned, s.matchList.length)] }
  else s

/-- The candidate loop of `ImapEncodingScan.execute` (lines 548-643): each
candidate is fetched (here: taken from the list, `none` standing for a
fetch that returned nothing) and counted; a missing or falsy-uid message is
skipped before any further work; otherwise the suspect list is computed, a
non-match evaluates the progress notification and continues, and a match
appends a record, evaluates the notification, and breaks when
stop-after-first is set or a configured maximum is reached. -/
def scanLoop (cfg : ScanConfig) (candidates : List (Option FetchedMessage))
    (s : ScanState) : ScanState :=
  match candidates with
  | [] => s
  | c :: rest =>
    let s1 : ScanState := { s with scanned := s.scanned + 1 }
    match c with
    | none => scanLoop cfg rest s1
    | some m =>
      if m.uid = 0 then scanLoop cfg rest s1
      else
        let suspect := suspectDetailsOf m cfg.regex
        if suspect.isEmpty then scanLoop cfg rest (progressCheck cfg s1)
        else
          let s2 := progressCheck cfg
            { s1 with matchList :=
                s1.matchList ++ [{ imapUid := m.uid, matchSources := dedupFirst suspect }] }
          if cfg.stopAfterFirst = true ∨ (cfg.maxResults ≠ 0 ∧ cfg.maxResults ≤ s2.matchList.length)
            then s2
            else scanLoop cfg rest s2

/-- One whole scan of a candidate list, producing the summary of lines
645-650. An empty search result short-circuits in the code with an
all-zero summary, which coincides with running the loop on no candidates. -/
def runScan (cfg : ScanConfig) (candidates : List (Option FetchedMessage)) : ScanSummary :=
  let final := scanLoop cfg candidates { scanned := 0, matchList := [], progressLog := [] }
  { matchCount := final.matchList.length
    totalCandidates := candidates.length
    scanned := final.scanned
    matchDetails := final.matchList }

/-- A candidate on which the loop records a match: a usable message whose
suspect list is nonempty. -/
def candidateMatches (regex : String → Bool) (c : Option FetchedMessage) : Bool :=
  match c with
  | none => false
  | some m => if m.uid = 0 then false else !(suspectDetailsOf m regex).isEmpty

/-- A candidate whose fetch yielded a usable message (non-null with truthy
uid). -/
def usableCandidate (c : Option FetchedMessage) : Bool :=
  match c with
  | none => false
  | some m => m.uid != 0

/-- Index of the first element satisfying the predicate (the length when
none does). -/
def firstIdx (p : α → Bool) : List α → Nat
  | [] => 0
  | x :: xs => if p x then 0 else firstIdx p xs + 1

theorem flattenList_spec (xs : List CriteriaValue)
    (H : ∀ x ∈ xs,
      (containsMapping x = true →
        flattenSearchTokens x = .error "Search criteria arrays may not contain nested objects.") ∧
      (containsMapping x = false →
        flattenSearchTokens x = .ok ((preorderPrims x).map jsStringPrim))) :
    (anyMapping xs = true →
      flattenSearchTokensList xs = .error "Search criteria arrays may not contain nested objects.") ∧
    (anyMapping xs = false →
      flattenSearchTokensList xs = .ok ((preorderPrimsList xs).map jsStringPrim)) := by
  induction xs with
  | nil =>
    refine ⟨fun h => by simp [anyMapping] at h, fun _ => rfl⟩
  | cons x xs ih =>
    have hx := H x (List.mem_cons_self x xs)
    have hxs := ih fun y hy => H y (List.mem_cons_of_mem x hy)
    constructor
    · intro h
      rcases Bool.or_eq_true_iff.mp (by simpa [anyMapping] using h) with hcm | hany
      · simp [flattenSearchTokensList, hx.1 hcm]
      · cases hcmx : containsMapping x with
        | true => simp [flattenSearchTokensList, hx.1 hcmx]
        | false => simp [flattenSearchTokensList, hx.2 hcmx, hxs.1 hany]
    · intro h
      have hsplit := by simpa [anyMapping] using h
      have h1 : containsMapping x = false := by
        cases hcmx : containsMapping x
        · rfl
        · rw [hcmx] at hsplit; simp at hsplit
      have h2 : anyMapping xs = false := by
        cases hany : anyMapping xs
        · rfl
        · rw [hany] at hsplit; simp at hsplit
      simp [flattenSearchTokensList, hx.2 h1, hxs.2 h2, preorderPrimsList]

theorem cvSize_pos (v : CriteriaValue) : 0 < cvSize v := by
  cases v <;> simp [cvSize]

theorem cvSize_le_of_mem {x : CriteriaValue} {xs : List CriteriaValue} (h : x ∈ xs) :
    cvSize x ≤ cvSizeList xs := by
  induction xs with
  | nil => cases h
  | cons y ys ih =>
    rcases List.mem_cons.mp h with rfl | h2
    · simp only [cvSizeList]; omega
    · have := ih h2; simp only [cvSizeList]; omega

theorem flatten_spec_aux : ∀ n (v : CriteriaValue), cvSize v ≤ n →
    (containsMapping v = true →
      flattenSearchTokens v = .error "Search criteria arrays may not contain nested objects.") ∧
    (containsMapping v = false →
      flattenSearchTokens v = .ok ((preorderPrims v).map jsStringPrim)) := by
  intro n
  induction n with
  | zero => intro v hv; have := cvSize_pos v; omega
  | succ n ih =>
    intro v hv
    cases v with
    | null => exact ⟨fun h => by simp [containsMapping] at h, fun _ => rfl⟩
    | bool b => exact ⟨fun h => by simp [containsMapping] at h, fun _ => rfl⟩
    | num t => exact ⟨fun h => by simp [containsMapping] at h, fun _ => rfl⟩
    | str s => exact ⟨fun h => by simp [containsMapping] at h, fun _ => rfl⟩
    | obj fields => exact ⟨fun _ => rfl, fun h => by simp [containsMapping] at h⟩
    | arr xs =>
      have hsz : cvSizeList xs ≤ n := by
        have : cvSize (.arr xs) = 1 + cvSizeList xs := by simp [cvSize]
        omega
      have hlist := flattenList_spec xs fun x hx =>
        ih x (le_trans (cvSize_le_of_mem hx) hsz)
      constructor
      · intro h
        have : anyMapping xs = true := by simpa [containsMapping] using h
        simpa [flattenSearchTokens] using hlist.1 this
      · intro h
        have : anyMapping xs = false := by simpa [containsMapping] using h
        simpa [flattenSearchTokens, preorderPrims] using hlist.2 this

/-- C8: for every CriteriaValue containing no mapping, the token flattener
returns the primitives stringified in depth-first pre-order encounter order
with nested sequences expanded in place, dropping null/undefined elements
silently; for every CriteriaValue containing a mapping anywhere, flattening
fails with the MalformedCriteria error. -/
theorem c8_flatten_tokens (v : CriteriaValue) :
    (containsMapping v = true →
      flattenSearchTokens v = .error "Search criteria arrays may not contain nested objects.") ∧
    (containsMapping v = false →
      flattenSearchTokens v = .ok ((preorderPrims v).map jsStringPrim)) :=
  flatten_spec_aux (cvSize v) v le_rfl

/-- Witness for C8 at a concrete mapping-free value and at a concrete value
holding a nested mapping. -/
theorem c8_witness :
    (containsMapping (.arr [.str "UNSEEN", .null, .arr [.num "5", .bool true]]) = false ∧
      flattenSearchTokens (.arr [.str "UNSEEN", .null, .arr [.num "5", .bool true]]) =
        .ok ((preorderPrims (.arr [.str "UNSEEN", .null, .arr [.num "5", .bool true]])).map
          jsStringPrim)) ∧
    (containsMapping (.arr [.str "A", .obj []]) = true ∧
      flattenSearchTokens (.arr [.str "A", .obj []]) =
        .error "Search criteria arrays may not contain nested objects.") :=
  ⟨⟨by decide, (c8_flatten_tokens _).2 (by decide)⟩,
   ⟨by decide, (c8_flatten_tokens _).1 (by decide)⟩⟩

/-- C2: compilation never returns an empty predicate — an empty token
sequence, and likewise an empty predicate object supplied directly, yields
the canonical match-all predicate, while a non-empty compilation result and
a non-empty supplied object are returned as built. -/
theorem c2_never_empty_predicate :
    (tokensToSearchObject [] = .ok { all := some true }) ∧
    (∀ tokens s, tokensToSearchObject tokens = .ok s → s.isEmpty = false) ∧
    (objectModeNormalize [] = [("all", CriteriaValue.bool true)]) ∧
    (∀ p ps, objectModeNormalize (p :: ps) = p :: ps) := by
  refine ⟨by decide, ?_, rfl, fun p ps => rfl⟩
  intro tokens s h
  unfold tokensToSearchObject at h
  cases h0 : tokensLoop {} tokens with
  | error e => rw [h0] at h; cases h
  | ok s0 =>
    rw [h0] at h
    injection h with h'
    subst h'
    by_cases he : s0.isEmpty = true
    · rw [if_pos he]; decide
    · rw [if_neg he]
      cases hb : s0.isEmpty
      · rfl
      · exact absurd hb he

/-- Witness for C2: a nonempty token sequence compiles to a predicate that
the emptiness test rejects. -/
theorem c2_witness :
    tokensToSearchObject ["SEEN"] = .ok { seen := some true } ∧
    ({ seen := some true } : SearchObject).isEmpty = false :=
  ⟨by decide, c2_never_empty_predicate.2.1 ["SEEN"] _ (by decide)⟩

/-- C6: HEADER consumes the next two tokens as name and value, lower-cases
the name, coerces the value to a boolean exactly when it case-insensitively
equals true/false (otherwise keeps the string), and accumulates repeated
HEADER pairs into one mapping where a later occurrence of the same
lower-cased name overwrites the earlier value. -/
theorem c6_header_accumulation :
    (∀ k v k2 v2, jsToLower k2 = jsToLower k →
      tokensToSearchObject ["HEADER", k, v, "HEADER", k2, v2] =
        .ok { header := some [(jsToLower k2, parseHeaderValue v2)] }) ∧
    (∀ k v, jsToLower v = "true" →
      tokensToSearchObject ["HEADER", k, v] =
        .ok { header := some [(jsToLower k, .bool true)] }) ∧
    (∀ k v, jsToLower v = "false" →
      tokensToSearchObject ["HEADER", k, v] =
        .ok { header := some [(jsToLower k, .bool false)] }) ∧
    (∀ k v, jsToLower v ≠ "true" → jsToLower v ≠ "false" →
      tokensToSearchObject ["HEADER", k, v] =
        .ok { header := some [(jsToLower k, .str v)] }) ∧
    (tokensToSearchObject ["HEADER", "X-Test", "true", "HEADER", "X-Test", "value2"] =
      .ok { header := some [("x-test", .str "value2")] }) := by
  refine ⟨?_, ?_, ?_, ?_, by decide⟩
  · intro k v k2 v2 h
    have e1 : tokensToSearchObject ["HEADER", k, v, "HEADER", k2, v2] =
        .ok { header := some (insertAssoc [(jsToLower k, parseHeaderValue v)]
          (jsToLower k2) (parseHeaderValue v2)) } := rfl
    rw [e1]
    simp [insertAssoc, h]
  · intro k v h
    have e1 : tokensToSearchObject ["HEADER", k, v] =
        .ok { header := some [(jsToLower k, parseHeaderValue v)] } := rfl
    rw [e1]
    simp [parseHeaderValue, h]
  · intro k v h
    have e1 : tokensToSearchObject ["HEADER", k, v] =
        .ok { header := some [(jsToLower k, parseHeaderValue v)] } := rfl
    rw [e1]
    have : jsToLower v ≠ "true" := by rw [h]; decide
    simp [parseHeaderValue, h, this]
  · intro k v h1 h2
    have e1 : tokensToSearchObject ["HEADER", k, v] =
        .ok { header := some [(jsToLower k, parseHeaderValue v)] } := rfl
    rw [e1]
    simp [parseHeaderValue, h1, h2]

/-- Witness for C6: two HEADER pairs whose names differ only in case end as
a single mapping entry holding the later value. -/
theorem c6_witness :
    jsToLower "a" = jsToLower "A" ∧
    tokensToSearchObject ["HEADER", "A", "x", "HEADER", "a", "y"] =
      .ok { header := some [(jsToLower "a", parseHeaderValue "y")] } :=
  ⟨rfl, c6_header_accumulation.1 "A" "x" "a" "y" rfl⟩

/-- C7: every single-argument keyword supplied with no following token fails
with the MissingArgument error naming the (upper-cased) keyword, HEADER with
fewer than two following tokens fails the same way, and when a next token
exists it is consumed exactly once as the value, LARGER/SMALLER coercing it
to a number. -/
theorem c7_missing_argument :
    (∀ s kw, kw ∈ singleArgKeywords →
      tokensLoop s [kw] = .error (kw ++ " requires an additional value.")) ∧
    (∀ s, tokensLoop s ["HEADER"] = .error "HEADER requires an additional value.") ∧
    (∀ s k, tokensLoop s ["HEADER", k] = .error "HEADER requires an additional value.") ∧
    (∀ v, tokensToSearchObject ["FROM", v] = .ok { from' := some v }) ∧
    (∀ v, tokensToSearchObject ["LARGER", v] = .ok { larger := some (JsNumber.mk v) }) ∧
    (∀ v, tokensToSearchObject ["SMALLER", v] = .ok { smaller := some (JsNumber.mk v) }) ∧
    (tokensToSearchObject ["FROM", "SEEN"] = .ok { from' := some "SEEN" }) := by
  refine ⟨?_, fun s => rfl, fun s k => rfl, fun v => rfl, fun v => rfl, fun v => rfl, by decide⟩
  intro s kw h
  fin_cases h <;> rfl

/-- Witness for C7: the keyword FROM as a final token aborts with the
MissingArgument message. -/
theorem c7_witness :
    "FROM" ∈ singleArgKeywords ∧
    tokensLoop {} ["FROM"] = .error ("FROM" ++ " requires an additional value.") :=
  ⟨by decide, c7_missing_argument.1 {} "FROM" (by decide)⟩

theorem collectAux_eq_filterMap (regex : String → Bool) :
    ∀ n q, nodeCountList q ≤ n →
      collectEncodingMatchesAux regex q = (bfsNodes q).filterMap (matchEntry regex) := by
  intro n
  induction n with
  | zero =>
    intro q hq
    cases q with
    | nil => simp [collectEncodingMatchesAux, bfsNodes]
    | cons n0 rest =>
      exfalso
      have h1 := nodeCount_pos n0
      simp only [nodeCountList] at hq
      omega
  | succ n ih =>
    intro q hq
    cases q with
    | nil => simp [collectEncodingMatchesAux, bfsNodes]
    | cons n0 rest =>
      have hrec : nodeCountList (rest ++ n0.childNodes) ≤ n := by
        simp only [nodeCountList] at hq
        rw [nodeCountList_append]
        rw [nodeCount_eq] at hq
        omega
      rw [collectEncodingMatchesAux, bfsNodes, List.filterMap_cons, ih _ hrec]
      by_cases hc : cleanEncoding n0.encoding ≠ "" ∧ regex (cleanEncoding n0.encoding) = true
      · rw [if_pos hc]
        rw [show matchEntry regex n0 =
          some (describeStructure n0 ++ ": " ++ cleanEncoding n0.encoding) from if_pos hc]
        simp
      · rw [if_neg hc]
        rw [show matchEntry regex n0 = none from if_neg hc]
        simp

theorem bfsNodes_length_aux :
    ∀ n q, nodeCountList q ≤ n → (bfsNodes q).length = nodeCountList q := by
  intro n
  induction n with
  | zero =>
    intro q hq
    cases q with
    | nil => simp [bfsNodes, nodeCountList]
    | cons n0 rest =>
      exfalso
      have h1 := nodeCount_pos n0
      simp only [nodeCountList] at hq
      omega
  | succ n ih =>
    intro q hq
    cases q with
    | nil => simp [bfsNodes, nodeCountList]
    | cons n0 rest =>
      have hrec : nodeCountList (rest ++ n0.childNodes) ≤ n := by
        simp only [nodeCountList] at hq
        rw [nodeCountList_append]
        rw [nodeCount_eq] at hq
        omega
      rw [bfsNodes]
      simp only [List.length_cons, ih _ hrec, nodeCountList_append, nodeCountList,
        nodeCount_eq]
      omega

/-- C1 (amended): the tree pass visits every node — the breadth-first
enumeration has exactly one element per node of the tree — and the match
list is exactly the per-node entries of that enumeration, one per node
whose normalized encoding is nonempty and matches the pattern; in
particular the three-node example with only the middle node matching
returns exactly its provenance entry. -/
theorem c1_tree_traversal :
    (∀ regex root, collectEncodingMatches (some root) regex =
      (bfsNodes [root]).filterMap (matchEntry regex)) ∧
    (∀ q : List MessageStructure, (bfsNodes q).length = nodeCountList q) ∧
    (collectEncodingMatches
      (some (.mk (some "multipart/mixed") none none none
        [.mk (some "text/plain") (some "1") none (some "8bit") [],
         .mk (some "text/html") (some "2") none (some "7bit") []]))
      (fun s => s == "8bit") = ["text/plain part 1: 8bit"]) := by
  refine ⟨?_, ?_, ?_⟩
  · intro regex root
    exact collectAux_eq_filterMap regex (nodeCountList [root]) [root] le_rfl
  · intro q
    exact bfsNodes_length_aux (nodeCountList q) q le_rfl
  · simp [collectEncodingMatches, collectEncodingMatchesAux, cleanEncoding,
      describeStructure, MessageStructure.encoding, MessageStructure.type,
      MessageStructure.part, MessageStructure.disposition, MessageStructure.childNodes,
      optLabel, joinSpace, trimJs, collapseWsAux, jsWs]

/-- Pattern accepting every string, the model of a regex such as an empty
alternation that also matches the empty string. -/
def matchAllRegex : String → Bool := fun _ => true

/-- Counterexample to C1 as stated: a single-node tree whose encoding
normalizes to the empty string under a pattern matching the empty string.
The unique node's normalized encoding matches the pattern, yet the
traversal produces zero provenance entries rather than one per matching
node. -/
theorem c1_counterexample :
    matchAllRegex (cleanEncoding
      (MessageStructure.mk none none none (some "  ") []).encoding) = true ∧
    (bfsNodes [MessageStructure.mk none none none (some "  ") []]).length = 1 ∧
    collectEncodingMatches
      (some (MessageStructure.mk none none none (some "  ") [])) matchAllRegex = [] := by
  refine ⟨rfl, ?_, ?_⟩
  · simp [bfsNodes, MessageStructure.childNodes]
  · simp [collectEncodingMatches, collectEncodingMatchesAux, cleanEncoding,
      MessageStructure.encoding, MessageStructure.childNodes, trimJs, collapseWsAux, jsWs,
      matchAllRegex]

theorem collapse_true_all_ws : ∀ l : List Char, (∀ c ∈ l, jsWs c = true) →
    collapseWsAux true l = [] := by
  intro l
  induction l with
  | nil => intro _; rfl
  | cons c rest ih =>
    intro h
    have hc : jsWs c = true := h c (List.mem_cons_self c rest)
    simp only [collapseWsAux, hc, if_true]
    exact ih fun d hd => h d (List.mem_cons_of_mem c hd)

theorem cteLineEntry_some {regex : String → Bool} {line : List Char} {e : String}
    (h : cteLineEntry regex line = some e) :
    ∃ v, v ≠ "" ∧ regex v = true ∧ e = "headers: " ++ v := by
  unfold cteLineEntry at h
  split at h
  · rcases hcap : cteCaptured (line.drop ctePat.length) with _ | cap
    · rw [hcap] at h; cases h
    · rw [hcap] at h
      simp only at h
      split at h
      · rename_i hcond
        injection h with h'
        exact ⟨cleanEncoding (some (String.mk cap)), hcond.1, hcond.2, h'.symm⟩
      · cases h
  · cases h

/-- C10: a part node whose encoding is absent, empty, or whitespace-only
(its normalization is the empty string) contributes no provenance entry
even under a pattern matching the empty string, and every header-pass entry
originates from a nonempty normalized value. -/
theorem c10_empty_encoding_skipped :
    (∀ (regex : String → Bool) ty pa di enc, cleanEncoding enc = "" →
      collectEncodingMatches (some (.mk ty pa di enc [])) regex = []) ∧
    (cleanEncoding none = "" ∧ cleanEncoding (some "") = "") ∧
    (∀ s : String, (∀ c ∈ s.data, jsWs c = true) → cleanEncoding (some s) = "") ∧
    (∀ (regex : String → Bool) h e, e ∈ collectHeaderEncodingMatches h regex →
      ∃ v, v ≠ "" ∧ regex v = true ∧ e = "headers: " ++ v) := by
  refine ⟨?_, ⟨rfl, rfl⟩, ?_, ?_⟩
  · intro regex ty pa di enc h
    simp [collectEncodingMatches, collectEncodingMatchesAux, MessageStructure.encoding,
      MessageStructure.childNodes, h]
  · intro s hs
    rcases hd : s.data with _ | ⟨c, cs⟩
    · simp [cleanEncoding, hd]
    · have hc : jsWs c = true := by
        apply hs; rw [hd]; exact List.mem_cons_self c cs
      have hcs : collapseWsAux true cs = [] := by
        apply collapse_true_all_ws
        intro d hd2
        apply hs; rw [hd]; exact List.mem_cons_of_mem c hd2
      simp only [cleanEncoding, hd, List.isEmpty_cons, collapseWsAux, hc, if_true,
        Bool.false_eq_true, if_false, hcs]
      rfl
  · intro regex h e he
    rcases h with _ | hh
    · cases he
    · simp only [collectHeaderEncodingMatches] at he
      by_cases hemp : hh.data.isEmpty = true
      · rw [if_pos hemp] at he; cases he
      · rw [if_neg hemp] at he
        rcases List.mem_filterMap.mp he with ⟨line, _, hf⟩
        exact cteLineEntry_some hf

/-- Witness for C10: a whitespace-only encoding under the all-matching
pattern yields no entry. -/
theorem c10_witness :
    cleanEncoding (some "  ") = "" ∧ matchAllRegex "" = true ∧
    collectEncodingMatches
      (some (.mk none none (some "attachment") (some "  ") [])) matchAllRegex = [] :=
  ⟨by decide, rfl,
   c10_empty_encoding_skipped.1 matchAllRegex none none (some "attachment") (some "  ")
     (by decide)⟩

theorem mem_dedupFirstAux (a : String) : ∀ (xs seen : List String),
    a ∈ dedupFirstAux seen xs ↔ (a ∈ xs ∧ a ∉ seen) := by
  intro xs
  induction xs with
  | nil => intro seen; simp [dedupFirstAux]
  | cons x rest ih =>
    intro seen
    by_cases hx : x ∈ seen
    · simp only [dedupFirstAux, if_pos hx]
      rw [ih seen]
      constructor
      · rintro ⟨h1, h2⟩; exact ⟨List.mem_cons_of_mem x h1, h2⟩
      · rintro ⟨h1, h2⟩
        rcases List.mem_cons.mp h1 with rfl | h3
        · exact absurd hx h2
        · exact ⟨h3, h2⟩
    · simp only [dedupFirstAux, if_neg hx]
      constructor
      · intro hmem
        rcases List.mem_cons.mp hmem with rfl | h3
        · exact ⟨List.mem_cons_self a rest, hx⟩
        · have h4 := (ih (x :: seen)).mp h3
          exact ⟨List.mem_cons_of_mem x h4.1,
            fun hs => h4.2 (List.mem_cons_of_mem x hs)⟩
      · rintro ⟨h1, h2⟩
        rcases List.mem_cons.mp h1 with rfl | h3
        · exact List.mem_cons_self a _
        · by_cases hax : a = x
          · subst hax; exact List.mem_cons_self a _
          · apply List.mem_cons_of_mem
            refine (ih (x :: seen)).mpr ⟨h3, ?_⟩
            intro hmem
            rcases List.mem_cons.mp hmem with h4 | h5
            · exact hax h4
            · exact h2 h5

theorem dedupFirstAux_nodup : ∀ (xs seen : List String), (dedupFirstAux seen xs).Nodup := by
  intro xs
  induction xs with
  | nil => intro seen; simp [dedupFirstAux]
  | cons x rest ih =>
    intro seen
    by_cases hx : x ∈ seen
    · simp only [dedupFirstAux, if_pos hx]; exact ih seen
    · simp only [dedupFirstAux, if_neg hx]
      refine List.nodup_cons.mpr ⟨?_, ih (x :: seen)⟩
      intro hmem
      exact ((mem_dedupFirstAux x rest (x :: seen)).mp hmem).2 (List.mem_cons_self x seen)

theorem dedupFirstAux_sublist : ∀ (xs seen : List String), List.Sublist (dedupFirstAux seen xs) xs := by
  intro xs
  induction xs with
  | nil => intro seen; simp [dedupFirstAux]
  | cons x rest ih =>
    intro seen
    by_cases hx : x ∈ seen
    · simp only [dedupFirstAux, if_pos hx]
      exact (ih seen).cons x
    · simp only [dedupFirstAux, if_neg hx]
      exact (ih (x :: seen)).cons₂ x

/-- C3: the header fallback contributes entries only when the part-tree
pass produced zero provenance strings — with a nonempty tree result the
suspect list is exactly the tree result — and in either regime the final
provenance list is the order-preserving de-duplication of the entries
produced (no duplicates, an order-preserving sublist, same members). -/
theorem c3_header_fallback_gating :
    (∀ (m : FetchedMessage) (regex : String → Bool),
      collectEncodingMatches m.bodyStructure regex ≠ [] →
        suspectDetailsOf m regex = collectEncodingMatches m.bodyStructure regex ∧
        matchSourcesOf m regex = dedupFirst (collectEncodingMatches m.bodyStructure regex)) ∧
    (∀ (m : FetchedMessage) (regex : String → Bool),
      collectEncodingMatches m.bodyStructure regex = [] →
        matchSourcesOf m regex = dedupFirst (collectHeaderEncodingMatches m.headers regex)) ∧
    (∀ xs : List String,
      (dedupFirst xs).Nodup ∧ List.Sublist (dedupFirst xs) xs ∧ ∀ a, a ∈ dedupFirst xs ↔ a ∈ xs) := by
  refine ⟨?_, ?_, ?_⟩
  · intro m regex hne
    have hs : suspectDetailsOf m regex = collectEncodingMatches m.bodyStructure regex := by
      unfold suspectDetailsOf
      rcases m.headers with _ | h
      · rfl
      · simp only
        rw [if_neg]
        simpa [List.length_eq_zero] using hne
    exact ⟨hs, by rw [matchSourcesOf, hs]⟩
  · intro m regex hz
    unfold matchSourcesOf suspectDetailsOf
    rcases hh : m.headers with _ | h
    · rw [hz]
      simp [collectHeaderEncodingMatches]
    · simp only [hz]
      simp
  · intro xs
    exact ⟨dedupFirstAux_nodup xs [], dedupFirstAux_sublist xs [],
      fun a => by simpa using mem_dedupFirstAux a xs []⟩

/-- Concrete message whose tree pass matches, used by the C3 witness. -/
def mC3 : FetchedMessage :=
  { uid := 7
    bodyStructure := some (.mk (some "text/plain") none none (some "8bit") [])
    headers := some "Content-Transfer-Encoding: 8bit" }

/-- Witness for C3: with a nonempty tree result the provenance list is the
de-duplicated tree result and the header pass contributes nothing. -/
theorem c3_witness :
    collectEncodingMatches mC3.bodyStructure (fun s => s == "8bit") ≠ [] ∧
    matchSourcesOf mC3 (fun s => s == "8bit") =
      dedupFirst (collectEncodingMatches mC3.bodyStructure (fun s => s == "8bit")) := by
  have hne : collectEncodingMatches mC3.bodyStructure (fun s => s == "8bit") ≠ [] := by
    simp [mC3, collectEncodingMatches, collectEncodingMatchesAux, cleanEncoding,
      describeStructure, MessageStructure.encoding, MessageStructure.type,
      MessageStructure.part, MessageStructure.disposition, MessageStructure.childNodes,
      optLabel, joinSpace, trimJs, collapseWsAux, jsWs]
  exact ⟨hne, (c3_header_fallback_gating.1 mC3 (fun s => s == "8bit") hne).2⟩

theorem progressCheck_scanned (cfg : ScanConfig) (s : ScanState) :
    (progressCheck cfg s).scanned = s.scanned := by
  unfold progressCheck; split <;> rfl

theorem progressCheck_matchList (cfg : ScanConfig) (s : ScanState) :
    (progressCheck cfg s).matchList = s.matchList := by
  unfold progressCheck; split <;> rfl

theorem firstIdx_le_of_get {p : α → Bool} :
    ∀ (l : List α) (j : Nat) (hj : j < l.length), p (l.get ⟨j, hj⟩) = true →
      firstIdx p l ≤ j := by
  intro l
  induction l with
  | nil => intro j hj; simp at hj
  | cons x rest ih =>
    intro j hj hp
    by_cases hx : p x = true
    · simp [firstIdx, hx]
    · cases j with
      | zero => simp at hp; exact absurd hp hx
      | succ j2 =>
        have := ih j2 (by simpa using hj) (by simpa using hp)
        simp only [firstIdx, if_neg hx]
        omega

theorem scanLoop_stopAfterFirst (cfg : ScanConfig) (hstop : cfg.stopAfterFirst = true) :
    ∀ (cands : List (Option FetchedMessage)) (s : ScanState),
      firstIdx (candidateMatches cfg.regex) cands < cands.length →
      (scanLoop cfg cands s).scanned =
        s.scanned + firstIdx (candidateMatches cfg.regex) cands + 1 := by
  intro cands
  induction cands with
  | nil => intro s h; simp [firstIdx] at h
  | cons c rest ih =>
    intro s h
    by_cases hc : candidateMatches cfg.regex c = true
    · have hidx : firstIdx (candidateMatches cfg.regex) (c :: rest) = 0 := by
        simp [firstIdx, hc]
      rw [hidx]
      cases c with
      | none => simp [candidateMatches] at hc
      | some m =>
        by_cases hm : m.uid = 0
        · rw [candidateMatches, if_pos hm] at hc; cases hc
        · have hsus : (suspectDetailsOf m cfg.regex).isEmpty = false := by
            rw [candidateMatches, if_neg hm] at hc
            simpa using hc
          simp only [scanLoop]
          rw [if_neg hm, if_neg (by rw [hsus]; decide), if_pos (Or.inl hstop)]
          rw [progressCheck_scanned]
    · have hidx : firstIdx (candidateMatches cfg.regex) (c :: rest) =
          firstIdx (candidateMatches cfg.regex) rest + 1 := by
        simp [firstIdx, hc]
      rw [hidx] at h ⊢
      have hrest : firstIdx (candidateMatches cfg.regex) rest < rest.length := by
        simp only [List.length_cons] at h; omega
      cases c with
      | none =>
        simp only [scanLoop]
        rw [ih _ hrest]
        simp only []
        omega
      | some m =>
        by_cases hm : m.uid = 0
        · simp only [scanLoop]
          rw [if_pos hm, ih _ hrest]
          simp only []
          omega
        · have hsus : (suspectDetailsOf m cfg.regex).isEmpty = true := by
            rw [candidateMatches, if_neg hm] at hc
            simpa using hc
          simp only [scanLoop]
          rw [if_neg hm, if_pos (by rw [hsus])]
          rw [ih _ hrest, progressCheck_scanned]
          simp only []
          omega

/-- C4: with stop-after-first set and a matching non-final candidate, the
loop stops at the first matching candidate — the reported scanned count is
its 1-based position, the reported total is the full candidate count, and
scanned is strictly below it. -/
theorem c4_stop_after_first (cfg : ScanConfig) (cands : List (Option FetchedMessage))
    (hstop : cfg.stopAfterFirst = true)
    (hmatch : ∃ j, ∃ hj : j < cands.length, j + 1 < cands.length ∧
      candidateMatches cfg.regex (cands.get ⟨j, hj⟩) = true) :
    (runScan cfg cands).scanned = firstIdx (candidateMatches cfg.regex) cands + 1 ∧
    (runScan cfg cands).totalCandidates = cands.length ∧
    (runScan cfg cands).scanned < (runScan cfg cands).totalCandidates := by
  rcases hmatch with ⟨j, hj, hjlt, hcm⟩
  have hle : firstIdx (candidateMatches cfg.regex) cands ≤ j :=
    firstIdx_le_of_get cands j hj hcm
  have hfi : firstIdx (candidateMatches cfg.regex) cands < cands.length := by omega
  have hrun : (runScan cfg cands).scanned =
      firstIdx (candidateMatches cfg.regex) cands + 1 := by
    unfold runScan
    simp only []
    rw [scanLoop_stopAfterFirst cfg hstop cands _ hfi]
    simp
  refine ⟨hrun, rfl, ?_⟩
  rw [hrun]
  show firstIdx (candidateMatches cfg.regex) cands + 1 < cands.length
  omega

/-- Part node matching the pattern of the concrete scan examples. -/
def nodeC4 : MessageStructure := .mk none none none (some "8bit") []

/-- Candidate message that matches (tree pass finds its encoding). -/
def mMatchC4 : FetchedMessage := { uid := 2, bodyStructure := some nodeC4, headers := none }

/-- Candidate message that does not match (no body structure, no headers). -/
def mNoC4 : FetchedMessage := { uid := 1, bodyStructure := none, headers := none }

/-- Stop-after-first configuration of the C4 example. -/
def cfgC4 : ScanConfig :=
  { regex := fun s => s == "8bit", stopAfterFirst := true, maxResults := 0, progressEvery := 0 }

/-- Five candidates, three matching, first match at 1-based position 2. -/
def candsC4 : List (Option FetchedMessage) :=
  [some mNoC4, some mMatchC4, some mMatchC4, some mMatchC4, some mNoC4]

/-- Witness for C4: on the five-candidate list with three matches the scan
stops at the first matching candidate, with scanned strictly below the
total. -/
theorem c4_witness :
    (runScan cfgC4 candsC4).scanned = firstIdx (candidateMatches cfgC4.regex) candsC4 + 1 ∧
    (runScan cfgC4 candsC4).scanned < (runScan cfgC4 candsC4).totalCandidates := by
  have hcm : candidateMatches cfgC4.regex (candsC4.get ⟨1, by decide⟩) = true := by
    show candidateMatches cfgC4.regex (some mMatchC4) = true
    simp [candidateMatches, mMatchC4, cfgC4, suspectDetailsOf, collectEncodingMatches,
      collectEncodingMatchesAux, nodeC4, cleanEncoding, MessageStructure.encoding,
      MessageStructure.childNodes, trimJs, collapseWsAux, jsWs]
  have h := c4_stop_after_first cfgC4 candsC4 rfl ⟨1, by decide, by decide, hcm⟩
  exact ⟨h.1, h.2.2⟩

theorem scanLoop_maxResults (cfg : ScanConfig) (hmax : 0 < cfg.maxResults) :
    ∀ (cands : List (Option FetchedMessage)) (s : ScanState),
      s.matchList.length < cfg.maxResults →
      (scanLoop cfg cands s).matchList.length ≤ cfg.maxResults := by
  have e : ∀ t : ScanState, (progressCheck cfg t).matchList.length = t.matchList.length :=
    fun t => by rw [progressCheck_matchList]
  intro cands
  induction cands with
  | nil => intro s h; exact Nat.le_of_lt h
  | cons c rest ih =>
    intro s h
    cases c with
    | none =>
      simp only [scanLoop]
      exact ih _ (by simpa using h)
    | some m =>
      by_cases hm : m.uid = 0
      · simp only [scanLoop]
        rw [if_pos hm]
        exact ih _ (by simpa using h)
      · cases hsus : (suspectDetailsOf m cfg.regex).isEmpty with
        | true =>
          simp only [scanLoop]
          rw [if_neg hm, if_pos (by rw [hsus])]
          apply ih
          rw [progressCheck_matchList]
          simpa using h
        | false =>
          simp only [scanLoop]
          rw [if_neg hm, if_neg (by rw [hsus]; decide)]
          split
          · rw [e]
            simp only [List.length_append, List.length_cons, List.length_nil]
            simp
            omega
          · rename_i hnb
            apply ih
            rw [e] at hnb ⊢
            push_neg at hnb
            have h2 := hnb.2 (by omega)
            simp only [List.length_append, List.length_cons, List.length_nil] at h2 ⊢
            simp at h2 ⊢
            omega

/-- C5: with a configured maximum match count m > 0 the match list never
exceeds m — the loop preserves the bound from any state below it, and the
final summary reports at most m matches. -/
theorem c5_max_results_cap (cfg : ScanConfig) (cands : List (Option FetchedMessage))
    (hmax : 0 < cfg.maxResults) :
    (runScan cfg cands).matchCount ≤ cfg.maxResults ∧
    (runScan cfg cands).matchDetails.length ≤ cfg.maxResults ∧
    (∀ s : ScanState, s.matchList.length < cfg.maxResults →
      (scanLoop cfg cands s).matchList.length ≤ cfg.maxResults) := by
  have hloop := scanLoop_maxResults cfg hmax cands
  have hrun : (scanLoop cfg cands
      { scanned := 0, matchList := [], progressLog := [] }).matchList.length ≤
      cfg.maxResults := hloop _ (by simpa using hmax)
  exact ⟨hrun, hrun, hloop⟩

/-- Configuration with maxResults 2 and stop-after-first disabled. -/
def cfgC5 : ScanConfig :=
  { regex := fun s => s == "8bit", stopAfterFirst := false, maxResults := 2, progressEvery := 0 }

/-- Four matching candidates, more than the configured maximum. -/
def candsC5 : List (Option FetchedMessage) :=
  [some mMatchC4, some mMatchC4, some mMatchC4, some mMatchC4]

/-- Witness for C5: four matching candidates under maxResults 2 still
report at most two matches. -/
theorem c5_witness :
    0 < cfgC5.maxResults ∧ (runScan cfgC5 candsC5).matchCount ≤ cfgC5.maxResults :=
  ⟨by decide, (c5_max_results_cap cfgC5 candsC5 (by decide)).1⟩

/-- Configuration with a progress notification due at every scanned
candidate. -/
def cfgC9 : ScanConfig :=
  { regex := fun s => s == "8bit", stopAfterFirst := false, maxResults := 0, progressEvery := 1 }

/-- Fresh loop state of a scan invocation. -/
def initState : ScanState := { scanned := 0, matchList := [], progressLog := [] }

/-- Counterexample to C9 as stated: a candidate whose fetch yields no usable
message is counted (scanned becomes 1, a positive multiple of the interval
1), yet the loop continues before the notification site and nothing is
emitted. -/
theorem c9_counterexample :
    0 < cfgC9.progressEvery ∧
    (scanLoop cfgC9 [none] initState).scanned = 1 ∧
    (scanLoop cfgC9 [none] initState).scanned % cfgC9.progressEvery = 0 ∧
    (scanLoop cfgC9 [none] initState).progressLog = [] :=
  ⟨by decide, rfl, rfl, rfl⟩

theorem progressCheck_progressLog (cfg : ScanConfig) (t : ScanState) :
    ∃ u, (progressCheck cfg t).progressLog = t.progressLog ++ u := by
  unfold progressCheck
  split
  · exact ⟨[(t.scanned, t.matchList.length)], rfl⟩
  · exact ⟨[], (List.append_nil _).symm⟩

theorem progressCheck_mem {cfg : ScanConfig} {t : ScanState} {p : Nat × Nat}
    (hp : p ∈ (progressCheck cfg t).progressLog) :
    p ∈ t.progressLog ∨ (0 < cfg.progressEvery ∧ p.1 % cfg.progressEvery = 0) := by
  unfold progressCheck at hp
  split at hp
  · rename_i hc
    rcases List.mem_append.mp hp with h | h
    · exact Or.inl h
    · have hpe : p = (t.scanned, t.matchList.length) := by simpa using h
      subst hpe
      exact Or.inr ⟨Nat.pos_of_ne_zero hc.1, hc.2⟩
  · exact Or.inl hp

theorem append_factor_trans {α : Type} {l1 l2 l3 : List α}
    (h2 : ∃ t, l3 = l2 ++ t) (h1 : ∃ u, l2 = l1 ++ u) : ∃ v, l3 = l1 ++ v := by
  rcases h1 with ⟨u, hu⟩
  rcases h2 with ⟨t, ht⟩
  exact ⟨u ++ t, by rw [ht, hu, List.append_assoc]⟩

theorem scanLoop_progressLog_mono (cfg : ScanConfig) :
    ∀ (cands : List (Option FetchedMessage)) (s : ScanState),
      ∃ t, (scanLoop cfg cands s).progressLog = s.progressLog ++ t := by
  intro cands
  induction cands with
  | nil => intro s; exact ⟨[], (List.append_nil _).symm⟩
  | cons c rest ih =>
    intro s
    cases c with
    | none =>
      simp only [scanLoop]
      exact ih _
    | some m =>
      by_cases hm : m.uid = 0
      · simp only [scanLoop]
        rw [if_pos hm]
        exact ih _
      · cases hsus : (suspectDetailsOf m cfg.regex).isEmpty with
        | true =>
          simp only [scanLoop]
          rw [if_neg hm, if_pos (by rw [hsus])]
          exact append_factor_trans (ih _) (progressCheck_progressLog cfg _)
        | false =>
          simp only [scanLoop]
          rw [if_neg hm, if_neg (by rw [hsus]; decide)]
          split
          · exact progressCheck_progressLog cfg _
          · exact append_factor_trans (ih _) (progressCheck_progressLog cfg _)

/-- C9 (amended): with a progress interval n > 0, a notification is emitted
each time the scanned counter, after a candidate is fetched, counted, and
found to carry a usable message, is a positive multiple of n — whether or
not the candidate matched; a candidate yielding no usable message is
counted but emits nothing (a run over only such candidates emits no
notification at all), and every emitted notification carries a scanned
count that is a positive multiple of n. -/
theorem c9_progress_amended :
    (∀ (cfg : ScanConfig) (m : FetchedMessage) (rest : List (Option FetchedMessage))
        (s : ScanState),
      0 < cfg.progressEvery → (s.scanned + 1) % cfg.progressEvery = 0 → m.uid ≠ 0 →
      ∃ k t, (scanLoop cfg (some m :: rest) s).progressLog =
        s.progressLog ++ (s.scanned + 1, k) :: t) ∧
    (∀ (cfg : ScanConfig) (cands : List (Option FetchedMessage)) (s : ScanState),
      (∀ c ∈ cands, usableCandidate c = false) →
      (scanLoop cfg cands s).progressLog = s.progressLog) ∧
    (∀ (cfg : ScanConfig) (cands : List (Option FetchedMessage)) (s : ScanState)
        (p : Nat × Nat), p ∈ (scanLoop cfg cands s).progressLog →
      p ∈ s.progressLog ∨ (0 < cfg.progressEvery ∧ p.1 % cfg.progressEvery = 0)) := by
  refine ⟨?_, ?_, ?_⟩
  · intro cfg m rest s h1 h2 hu
    have hkey : ∀ t : ScanState, t.scanned = s.scanned + 1 → t.progressLog = s.progressLog →
        (progressCheck cfg t).progressLog =
          s.progressLog ++ [(s.scanned + 1, t.matchList.length)] := by
      intro t ht hl
      unfold progressCheck
      rw [if_pos ⟨by omega, by rw [ht]; exact h2⟩]
      simp [ht, hl]
    have hkey2 : ∀ t : ScanState, t.scanned = s.scanned + 1 → t.progressLog = s.progressLog →
        ∀ rest2, ∃ k u, (scanLoop cfg rest2 (progressCheck cfg t)).progressLog =
          s.progressLog ++ (s.scanned + 1, k) :: u := by
      intro t ht hl rest2
      rcases scanLoop_progressLog_mono cfg rest2 (progressCheck cfg t) with ⟨u, hu2⟩
      refine ⟨t.matchList.length, u, ?_⟩
      rw [hu2, hkey t ht hl, List.append_assoc]
      rfl
    have hkey3 : ∀ t : ScanState, t.scanned = s.scanned + 1 → t.progressLog = s.progressLog →
        ∃ k u, (progressCheck cfg t).progressLog =
          s.progressLog ++ (s.scanned + 1, k) :: u := by
      intro t ht hl
      refine ⟨t.matchList.length, [], ?_⟩
      rw [hkey t ht hl]
    cases hsus : (suspectDetailsOf m cfg.regex).isEmpty with
    | true =>
      simp only [scanLoop]
      rw [if_neg hu, if_pos (by rw [hsus])]
      apply hkey2
      · rfl
      · rfl
    | false =>
      simp only [scanLoop]
      rw [if_neg hu, if_neg (by rw [hsus]; decide)]
      split
      · apply hkey3
        · rfl
        · rfl
      · apply hkey2
        · rfl
        · rfl
  · intro cfg cands
    induction cands with
    | nil => intro s _; rfl
    | cons c rest ih =>
      intro s hall
      have hc := hall c (List.mem_cons_self c rest)
      cases c with
      | none =>
        simp only [scanLoop]
        exact ih _ fun d hd => hall d (List.mem_cons_of_mem _ hd)
      | some m =>
        have hm : m.uid = 0 := by simpa [usableCandidate] using hc
        simp only [scanLoop]
        rw [if_pos hm]
        exact ih _ fun d hd => hall d (List.mem_cons_of_mem _ hd)
  · intro cfg cands
    induction cands with
    | nil => intro s p hp; exact Or.inl hp
    | cons c rest ih =>
      intro s p hp
      cases c with
      | none =>
        simp only [scanLoop] at hp
        rcases ih _ p hp with h | h
        · exact Or.inl h
        · exact Or.inr h
      | some m =>
        by_cases hm : m.uid = 0
        · simp only [scanLoop] at hp
          rw [if_pos hm] at hp
          rcases ih _ p hp with h | h
          · exact Or.inl h
          · exact Or.inr h
        · cases hsus : (suspectDetailsOf m cfg.regex).isEmpty with
          | true =>
            simp only [scanLoop] at hp
            rw [if_neg hm, if_pos (by rw [hsus])] at hp
            rcases ih _ p hp with h | h
            · rcases progressCheck_mem h with h2 | h2
              · exact Or.inl h2
              · exact Or.inr h2
            · exact Or.inr h
          | false =>
            simp only [scanLoop] at hp
            rw [if_neg hm, if_neg (by rw [hsus]; decide)] at hp
            split at hp
            · rcases progressCheck_mem hp with h2 | h2
              · exact Or.inl h2
              · exact Or.inr h2
            · rcases ih _ p hp with h | h
              · rcases progressCheck_mem h with h2 | h2
                · exact Or.inl h2
                · exact Or.inr h2
              · exact Or.inr h

/-- Usable non-matching candidate of the C9 witness. -/
def mC9 : FetchedMessage := { uid := 5, bodyStructure := none, headers := none }

/-- Witness for C9 (amended): a usable candidate that does not match still
triggers the notification when scanned reaches a multiple of the
interval. -/
theorem c9_witness :
    0 < cfgC9.progressEvery ∧
    ∃ k t, (scanLoop cfgC9 [some mC9] initState).progressLog =
      initState.progressLog ++ (initState.scanned + 1, k) :: t :=
  ⟨by decide,
   c9_progress_amended.1 cfgC9 mC9 [] initState (by decide) (by decide) (by decide)⟩
